import Mathlib

/-!
Shallow embedding of `src/hft/backtester.py`, the walk-forward backtesting
engine of the `hft` repository, together with proofs of the specification
claims about it.

Modelling conventions:
* prices and numeric data are rationals (`ℚ`); NaN cells are `Option` values;
* Python exceptions are `Except` values;
* pandas tables are lists of records, positional column assignment is `zip`;
* the helper modules `hft/utils.py` and `hft/signal_utils.py` are not part of
  the given sources; the handful of helpers the backtester imports from them
  are modelled from the spec and carry a `Modelled from the spec:` doc comment.
-/

attribute [local semireducible] Rat.add Rat.mul Rat.sub Rat.inv

namespace HFT

/-- A moving (horizon-indexed) column key: base column name, backward horizon
and forward horizon in seconds.  Columns are keyed structurally instead of by
the string `name_back_fwd`. -/
abbrev MovingColumn := String × Nat × Nat

/-- Modelled from the spec: `hft.utils.get_moving_column_name` derives the
concrete column for a base name and a backward/forward horizon pair (naming
convention encoding base name and horizons; here the key is the tuple). -/
def get_moving_column_name (name : String) (backward fwd : Nat) : MovingColumn :=
  (name, backward, fwd)

/-- Modelled from the spec: `hft.utils.get_raw_column_name` recovers the base
feature name from a horizon-indexed column. -/
def get_raw_column_name (c : MovingColumn) : String :=
  c.1

/-- One tick record of the enriched input dataset `px`: one row per
(trading date, intraday second).  Only the fields the backtester reads are
modelled; the remaining descriptive columns (`dt`, `price`, `qty`, `volume`,
`open_interest`, `b1_size`, `s1_size`) play no role in any claim and are
omitted.  `feat` is the family of horizon-indexed feature/response columns
(`none` models a NaN cell). -/
structure Row where
  date : Nat
  second : Nat
  b1 : ℚ
  s1 : ℚ
  mid : ℚ
  feat : MovingColumn → Option ℚ

/-- The configuration record (spec section 3). -/
structure Config where
  response_column : String
  feature_column : List String
  feature_freq : List Nat
  feature_winsorize_prob : String → ℚ × ℚ
  feature_winsorize_bound : String → ℚ × ℚ
  response_winsorize_prob : ℚ × ℚ
  response_winsorize_bound : ℚ × ℚ
  training_period : Nat
  holding_period : Nat
  trade_trigger_threshold : ℚ × ℚ
  start_second : Nat
  end_second : Nat
  use_mid : Bool
  dynamic_unwinding : Bool
  unwinding_tick_move_upper_bound : ℚ
  unwinding_tick_move_lower_bound : ℚ
  tick_size : ℚ
  transaction_fee : ℚ

/-- One row of the backtest table `btdf` produced by `backtest`: the tick
fields kept by the evaluation slice plus the response column and the model
prediction `alpha`. -/
structure BtRow where
  date : Nat
  second : Nat
  b1 : ℚ
  s1 : ℚ
  mid : ℚ
  resp : Option ℚ
  alpha : ℚ
deriving DecidableEq

/-- Default record used for positional `getD` lookups (Python indexing into a
date slice never goes out of range in the modelled paths). -/
def defaultBtRow : BtRow :=
  { date := 0, second := 0, b1 := 0, s1 := 0, mid := 0, resp := none, alpha := 0 }

/-- The sorted list of distinct key values of a table:
`dates = list(set(...)); dates.sort()`. -/
def sortedDatesBy {α : Type} (f : α → Nat) (l : List α) : List Nat :=
  ((l.map f).dedup).insertionSort (· ≤ ·)

/-- Modelled from the spec: `hft.utils.safe_divide`, a guarded division that
is defined as 0 when the denominator is 0 instead of dividing by zero. -/
def safe_divide (a b : ℚ) : ℚ :=
  if b = 0 then 0 else a / b

/-- Empirical quantile of a list of rationals, taken at the lower order
statistic of the sorted data (used only inside the modelled winsorization). -/
def quantileAt (xs : List ℚ) (q : ℚ) : ℚ :=
  (xs.insertionSort (· ≤ ·)).getD (Int.toNat (Rat.floor (q * ((xs.length : ℚ) - 1)))) 0

/-- Modelled from the spec: `hft.utils.winsorize` clips a series at the
configured probability quantiles and absolute bounds (glossary: clip a value
distribution at a probability- or bound-based threshold).  The lower clip is
the larger of the lower quantile and the lower absolute bound, symmetrically
for the upper clip. -/
def winsorize (xs : List ℚ) (prob : ℚ × ℚ) (bound : ℚ × ℚ) : List ℚ :=
  let lo := max (quantileAt xs prob.1) bound.1
  let hi := min (quantileAt xs prob.2) bound.2
  xs.map (fun v => min (max v lo) hi)

/-! ### Trade Decision Engine (`trade`, backtester.py lines 111-118) -/

/-- `trade(btdf, config)`: sets `trade = 1` where `alpha` exceeds the upper
trigger threshold, then `-1` where `alpha` is below the lower one, then forces
`0` outside the `[start_second, end_second]` window, in the source's
assignment order.  The produced column is returned zipped with the rows. -/
def trade (btdf : List BtRow) (cfg : Config) : List (BtRow × Int) :=
  btdf.map (fun r =>
    let t0 : Int := 0
    let t1 : Int := if cfg.trade_trigger_threshold.2 < r.alpha then 1 else t0
    let t2 : Int := if r.alpha < cfg.trade_trigger_threshold.1 then -1 else t1
    let t3 : Int := if cfg.end_second < r.second then 0 else t2
    let t4 : Int := if r.second < cfg.start_second then 0 else t3
    (r, t4))

/-! ### Position Matcher (backtester.py lines 121-178) -/

/-- `np.searchsorted(secs, t)` with the default `side='left'` on its
sorted-input contract: the index of the first element `≥ t`. -/
def searchsortedLeft (secs : List Nat) (t : Nat) : Nat :=
  (secs.takeWhile (fun s => decide (s < t))).length

/-- The slice of the backtest table belonging to one trading date
(`bti = btdf[btdf.date == date]`). -/
def dateGroup (btdf : List (BtRow × Int)) (d : Nat) : List (BtRow × Int) :=
  btdf.filter (fun rt => decide (rt.1.date = d))

/-- `get_fixed_period_close_second(btdf, config)`: per date (in sorted order),
search each row's `second + holding_period` in that date's seconds, clamp an
out-of-range index to the last tick, and emit the matched second; the per-date
results are concatenated. -/
def get_fixed_period_close_second (btdf : List (BtRow × Int)) (cfg : Config) : List Nat :=
  (sortedDatesBy (fun rt => rt.1.date) btdf).flatMap (fun d =>
    let bti := dateGroup btdf d
    let secs := bti.map (fun rt => rt.1.second)
    bti.map (fun rt =>
      let idx := searchsortedLeft secs (rt.1.second + cfg.holding_period)
      let idx2 := if idx = secs.length then secs.length - 1 else idx
      secs.getD idx2 0))

/-- `dynamic_hold(bti, config, i)`: the first position strictly after `i` in
the date slice whose mid-price move from row `i`'s mid, in tick-size units,
reaches the upper bound or the lower bound; the slice's last position if none
does.  (Within a date the pandas labels are strictly increasing, so label
order is position order.) -/
def dynamic_hold (bti : List (BtRow × Int)) (cfg : Config) (i : Nat) : Nat :=
  let mid0 := (bti.getD i (defaultBtRow, 0)).1.mid
  let cond := fun j : Nat =>
    let tc := ((bti.getD j (defaultBtRow, 0)).1.mid - mid0) / cfg.tick_size
    (decide (cfg.unwinding_tick_move_upper_bound ≤ tc) ||
      decide (tc ≤ cfg.unwinding_tick_move_lower_bound)) && decide (i < j)
  match (List.range bti.length).filter cond with
  | [] => bti.length - 1
  | j :: _ => j

/-- `get_dynamic_period_close_second(btdf, config)`: per date (in sorted
order), each row with zero trade gets a null matched second, a traded row gets
the second of the row chosen by `dynamic_hold`. -/
def get_dynamic_period_close_second (btdf : List (BtRow × Int)) (cfg : Config) :
    List (Option Nat) :=
  (sortedDatesBy (fun rt => rt.1.date) btdf).flatMap (fun d =>
    let bti := dateGroup btdf d
    (List.range bti.length).map (fun i =>
      if (bti.getD i (defaultBtRow, 0)).2 = 0 then none
      else some ((bti.getD (dynamic_hold bti cfg i) (defaultBtRow, 0)).1.second)))

/-- Strict lexicographic ordering of backtest rows by (date, second); the
tick data model orders the table this way, with one row per key. -/
def rowLexLt (a b : BtRow × Int) : Prop :=
  a.1.date < b.1.date ∨ (a.1.date = b.1.date ∧ a.1.second < b.1.second)

instance instDecRowLexLt (a b : BtRow × Int) : Decidable (rowLexLt a b) :=
  inferInstanceAs (Decidable (_ ∨ _))

/-- The mid-price move from row `i` to row `j` of a date slice, in tick-size
units, breaches the dynamic-unwind band. -/
def breachAt (bti : List (BtRow × Int)) (cfg : Config) (i j : Nat) : Prop :=
  cfg.unwinding_tick_move_upper_bound ≤
      ((bti.getD j (defaultBtRow, 0)).1.mid - (bti.getD i (defaultBtRow, 0)).1.mid) /
        cfg.tick_size ∨
    ((bti.getD j (defaultBtRow, 0)).1.mid - (bti.getD i (defaultBtRow, 0)).1.mid) /
        cfg.tick_size ≤ cfg.unwinding_tick_move_lower_bound

/-- One row of the final backtest table after `pnl`: the original row and its
trade signal, plus the open/close pricing columns.  NaN-valued cells
(unmatched join, null matched second) are `none`. -/
structure PnlRow where
  row : BtRow
  trade : Int
  open_price : ℚ
  matched_close_second : Option Nat
  close_b1 : Option ℚ
  close_s1 : Option ℚ
  close_mid : Option ℚ
  close_price : Option ℚ
  pnl : Option ℚ
  transaction_fee : Option ℚ
  net_pnl : Option ℚ
deriving DecidableEq

/-- Modelled from the spec: `hft.utils.left_join` of the backtest table with
itself re-keyed by `(date, matched_close_second)`; the join is deterministic,
taking the first matching row, and a missing key yields NaN columns. -/
def left_join_close (btdf : List (BtRow × Int)) (d : Nat) (m : Option Nat) :
    Option (ℚ × ℚ × ℚ) :=
  m.bind (fun ms =>
    (btdf.find? (fun rt => decide (rt.1.date = d) && decide (rt.1.second = ms))).map
      (fun rt => (rt.1.b1, rt.1.s1, rt.1.mid)))

/-- `pnl(btdf, config)`: open price by trade direction (or mid), matched close
second by the configured policy, close columns via the left join, close price
by trade direction at the close tick, then `pnl`, `transaction_fee` and
`net_pnl`.  For an untraded row the direction factors make the non-mid
open/close price 0, and an absent close tick makes every close-derived column
NaN (`none`), matching the float NaN propagation of the source. -/
def pnl (btdf : List (BtRow × Int)) (cfg : Config) : List PnlRow :=
  let matched : List (Option Nat) :=
    if cfg.dynamic_unwinding then get_dynamic_period_close_second btdf cfg
    else (get_fixed_period_close_second btdf cfg).map some
  (btdf.zip matched).map (fun rtm =>
    let r := rtm.1.1
    let t : Int := rtm.1.2
    let m := rtm.2
    let openP : ℚ :=
      if cfg.use_mid then r.mid
      else (if 0 < t then r.s1 else 0) + (if t < 0 then r.b1 else 0)
    let closeCols := left_join_close btdf r.date m
    let closeP : Option ℚ := closeCols.map (fun c =>
      if cfg.use_mid then c.2.2
      else (if 0 < t then c.1 else 0) + (if t < 0 then c.2.1 else 0))
    let pnlV : Option ℚ := closeP.map (fun cp => (t : ℚ) * (cp - openP))
    let feeV : Option ℚ := closeP.map (fun cp =>
      cfg.transaction_fee * |(t : ℚ)| * (openP + cp))
    let netV : Option ℚ :=
      match pnlV, feeV with
      | some a, some b => some (a - b)
      | _, _ => none
    { row := r, trade := t, open_price := openP, matched_close_second := m,
      close_b1 := closeCols.map (fun c => c.1),
      close_s1 := closeCols.map (fun c => c.2.1),
      close_mid := closeCols.map (fun c => c.2.2),
      close_price := closeP, pnl := pnlV, transaction_fee := feeV, net_pnl := netV })

/-! ### Model Fitter (`fit`, backtester.py lines 40-72) -/

/-- The two per-day fitting failures of the source: `sklearn` refuses an empty
design matrix (`ValueError`), `np.linalg.inv` refuses a singular `XᵀX`
(`LinAlgError`).  Either aborts `fit` with a Python exception. -/
inductive FitError where
  | emptyTrainingData : FitError
  | singularDesignMatrix : FitError
deriving DecidableEq

/-- The `fit_intercept` flag of `linear_model.LinearRegression(fit_intercept=False)`;
Python adds it (as 0 or 1) to the feature count when computing `p`. -/
def fit_intercept : Bool := false

/-- Determinant by Laplace expansion along the first row; an executable
definition used for the singularity test (proved equal to `Matrix.det` in
`detExec_eq_det` below). -/
def detExec : {k : Nat} → Matrix (Fin k) (Fin k) ℚ → ℚ
  | 0, _ => 1
  | k + 1, A =>
    ∑ j : Fin (k + 1), (-1 : ℚ) ^ (j : ℕ) * A 0 j * detExec (A.submatrix Fin.succ j.succAbove)

/-- The statistics dictionary built by `fit`. -/
structure OLSStats (p : Nat) where
  rsq : ℚ
  beta : Fin p → ℚ
  tstat : Fin p → ℝ
  mse : ℚ
  df_1 : ℤ
  df_2 : ℤ

/-- The statistics of the successful branch of the estimation core: OLS
coefficients from the normal equations (`np.linalg.inv` applied to `XᵀX`),
residual MSE with denominator `n - p` where `p` counts the features plus the
(suppressed) intercept flag, standard errors from the diagonal of
`MSE·(XᵀX)⁻¹`, t-statistics, R² and the two degrees of freedom. -/
noncomputable def fitStatsOf (n p : Nat) (x : Matrix (Fin n) (Fin p) ℚ) (y : Fin n → ℚ) :
    OLSStats p :=
  let xtx := x.transpose * x
  let xtxInv := xtx.det⁻¹ • xtx.adjugate
  let beta := xtxInv.mulVec (x.transpose.mulVec y)
  let pred := x.mulVec beta
  let pEff := p + (if fit_intercept then 1 else 0)
  let mseV : ℚ := (∑ i, (pred i - y i) ^ 2) / ((n : ℚ) - (pEff : ℚ))
  let ybar : ℚ := (∑ i, y i) / (n : ℚ)
  { rsq := 1 - (∑ i, (pred i - y i) ^ 2) / (∑ i, (y i - ybar) ^ 2),
    beta := beta,
    tstat := fun j => ((beta j : ℚ) : ℝ) / Real.sqrt ((mseV * xtxInv j j : ℚ) : ℝ),
    mse := mseV,
    df_1 := (pEff : ℤ) - 1,
    df_2 := (n : ℤ) - (pEff : ℤ) }

/-- The numerical core of `fit` (backtester.py lines 60-71) on an already
preprocessed design matrix and response.  `sklearn` rejects an empty design
matrix and `np.linalg.inv` rejects a singular `XᵀX` (equivalently, zero
determinant); otherwise the fitted statistics are produced.  The explicit
inverse `det⁻¹ • adjugate` used in `fitStatsOf` is the matrix inverse. -/
noncomputable def fitCore (n p : Nat) (x : Matrix (Fin n) (Fin p) ℚ) (y : Fin n → ℚ) :
    Except FitError (OLSStats p) :=
  if n = 0 then .error .emptyTrainingData
  else if detExec (x.transpose * x) = 0 then .error .singularDesignMatrix
  else .ok (fitStatsOf n p x y)

/-- `fit(train, features, config)`: select the feature and response columns,
drop rows with a missing value in any of them, winsorize each feature column
with its raw-feature parameters and the response with the response parameters,
and run the estimation core. -/
noncomputable def fit (train : List Row) (features : List MovingColumn) (cfg : Config) :
    Except FitError (OLSStats features.length) :=
  let ycol := get_moving_column_name cfg.response_column 0 cfg.holding_period
  let rows := train.filterMap (fun r =>
    match features.mapM r.feat, r.feat ycol with
    | some xs, some yv => some (xs, yv)
    | _, _ => none)
  let p := features.length
  let cols := (List.range p).map (fun j =>
    let raw := get_raw_column_name (features.getD j ("", 0, 0))
    winsorize (rows.map (fun rw => rw.1.getD j 0))
      (cfg.feature_winsorize_prob raw) (cfg.feature_winsorize_bound raw))
  let yw := winsorize (rows.map (fun rw => rw.2))
    cfg.response_winsorize_prob cfg.response_winsorize_bound
  fitCore rows.length p (Matrix.of fun i j => (cols.getD j.val []).getD i.val 0)
    (fun i => yw.getD i.val 0)

/-! ### Feature Selector (`select_feature`, backtester.py lines 18-37) -/

/-- Modelled from the spec: the correlation computed by
`hft.signal_utils.xy_corr` between a winsorized feature variant and the
winsorized forward response, represented sqrt-free: the pair `(a, b)` stands
for the Pearson value `a / sqrt b` with `a` the scaled covariance and `b` the
product of the scaled variances. -/
def xyCorrKey (train : List Row) (xcol ycol : MovingColumn) (xprob xbound yprob ybound : ℚ × ℚ) :
    ℚ × ℚ :=
  let pairs := train.filterMap (fun r =>
    match r.feat xcol, r.feat ycol with
    | some a, some b => some (a, b)
    | _, _ => none)
  let xs := winsorize (pairs.map (fun pr => pr.1)) xprob xbound
  let ys := winsorize (pairs.map (fun pr => pr.2)) yprob ybound
  let n : ℚ := (xs.length : ℚ)
  let sx := xs.sum
  let sy := ys.sum
  let sxx := (xs.map (fun v => v ^ 2)).sum
  let syy := (ys.map (fun v => v ^ 2)).sum
  let sxy := ((xs.zip ys).map (fun pr => pr.1 * pr.2)).sum
  (n * sxy - sx * sy, (n * sxx - sx ^ 2) * (n * syy - sy ^ 2))

/-- Strict order on the sqrt-free correlation representation: a correlation
with nonpositive variance product (an undefined, NaN correlation) never beats
anything, and comparisons are otherwise by sign and by cross-multiplied
squares. -/
def corrGt (a b : ℚ × ℚ) : Bool :=
  if a.2 ≤ 0 then false
  else if b.2 ≤ 0 then true
  else if 0 ≤ a.1 then decide (b.1 < 0) || decide (b.1 ^ 2 * a.2 < a.1 ^ 2 * b.2)
  else decide (b.1 < 0) && decide (a.1 ^ 2 * b.2 < b.1 ^ 2 * a.2)

/-- `argmax` over the correlation row: the index of the maximal value, ties
broken by first occurrence. -/
def argmaxIdx (scores : List (ℚ × ℚ)) : Nat :=
  match scores with
  | [] => 0
  | s :: rest =>
    (rest.enum.foldl
      (fun best cur => if corrGt cur.2 best.2 then (cur.1 + 1, cur.2) else best)
      (0, s)).1

/-- `select_feature(train, config)`: for each logical predictor, correlate all
its horizon variants against the forward response (both winsorized) and keep
the variant with the maximal correlation. -/
def select_feature (train : List Row) (cfg : Config) : List MovingColumn :=
  let ycol := get_moving_column_name cfg.response_column 0 cfg.holding_period
  cfg.feature_column.map (fun name =>
    let candidates := cfg.feature_freq.map (fun fr => get_moving_column_name name fr 0)
    let scores := candidates.map (fun c =>
      xyCorrKey train c ycol (cfg.feature_winsorize_prob name)
        (cfg.feature_winsorize_bound name) cfg.response_winsorize_prob
        cfg.response_winsorize_bound)
    candidates.getD (argmaxIdx scores) (name, 0, 0))

/-! ### Walk-Forward Driver (`backtest`, backtester.py lines 75-108) -/

/-- Median of a list (pandas median: mean of the two middle order statistics
for an even count); `none` for an empty list (NaN). -/
def medianOpt (xs : List ℚ) : Option ℚ :=
  if xs.length = 0 then none
  else
    let s := xs.insertionSort (· ≤ ·)
    if xs.length % 2 = 1 then some (s.getD (xs.length / 2) 0)
    else some ((s.getD (xs.length / 2 - 1) 0 + s.getD (xs.length / 2) 0) / 2)

/-- Mean of a list; `none` for an empty list (NaN). -/
def meanOpt (xs : List ℚ) : Option ℚ :=
  if xs.length = 0 then none else some (xs.sum / (xs.length : ℚ))

/-- Pearson correlation of a list of pairs, as a real number. -/
noncomputable def pearsonR (pairs : List (ℚ × ℚ)) : ℝ :=
  let n : ℝ := (pairs.length : ℚ)
  let sx : ℝ := ((pairs.map (fun pr => pr.1)).sum : ℚ)
  let sy : ℝ := ((pairs.map (fun pr => pr.2)).sum : ℚ)
  let sxx : ℝ := ((pairs.map (fun pr => pr.1 ^ 2)).sum : ℚ)
  let syy : ℝ := ((pairs.map (fun pr => pr.2 ^ 2)).sum : ℚ)
  let sxy : ℝ := ((pairs.map (fun pr => pr.1 * pr.2)).sum : ℚ)
  (n * sxy - sx * sy) / Real.sqrt ((n * sxx - sx ^ 2) * (n * syy - sy ^ 2))

/-- One row of the day-level `fitting_stats` table. -/
structure StatsRow where
  date : Nat
  rsq : ℚ
  beta : List ℚ
  tstat : List ℝ
  mse : ℚ
  df_1 : ℤ
  df_2 : ℤ
  pred_rsq : ℝ
  pred_mse : Option ℚ

/-- The training snapshot sliced by `backtest` for iteration `i`:
`px[(px.date >= dates[i - training_period]) & (px.date < dates[i])]`. -/
def trainingWindow (px : List Row) (cfg : Config) (i : Nat) : List Row :=
  let dates := sortedDatesBy Row.date px
  px.filter (fun r =>
    decide (dates.getD (i - cfg.training_period) 0 ≤ r.date) &&
      decide (r.date < dates.getD i 0))

/-- `backtest(px, config)`: the walk-forward loop over the sorted distinct
trading dates, from index `training_period` to the end.  Each iteration
selects features and fits on the training window, predicts `alpha` on the
evaluation day (missing evaluation features filled with that day's column
median; a day with no observed value at all leaves 0, an untravelled NaN
corner), and appends the day's prediction rows and fitting statistics.  There
is no exception handling in the source, so a fitting failure aborts the fold
and escapes as the `Except` error. -/
noncomputable def backtest (px : List Row) (cfg : Config) :
    Except FitError (List BtRow × List StatsRow) :=
  let dates := sortedDatesBy Row.date px
  let yName := get_moving_column_name cfg.response_column 0 cfg.holding_period
  ((List.range dates.length).drop cfg.training_period).foldlM (fun acc i => do
    let date := dates.getD i 0
    let train := trainingWindow px cfg i
    let features := select_feature train cfg
    let stats ← fit train features cfg
    let pxi := px.filter (fun r => decide (r.date = date))
    let medians := features.map (fun c => medianOpt (pxi.filterMap (fun r => r.feat c)))
    let rows := pxi.map (fun r =>
      let xvec : Fin features.length → ℚ := fun j =>
        (((r.feat (features.getD j.val ("", 0, 0))).orElse
          (fun _ => medians.getD j.val none)).getD 0)
      { date := r.date, second := r.second, b1 := r.b1, s1 := r.s1, mid := r.mid,
        resp := r.feat yName, alpha := ∑ j, xvec j * stats.beta j : BtRow })
    let predPairs := rows.filterMap (fun br => br.resp.map (fun yv => (br.alpha, yv)))
    let statsRow : StatsRow :=
      { date := date, rsq := stats.rsq, beta := List.ofFn stats.beta,
        tstat := List.ofFn stats.tstat, mse := stats.mse, df_1 := stats.df_1,
        df_2 := stats.df_2, pred_rsq := pearsonR predPairs,
        pred_mse := if predPairs.length = 0 then none
          else some ((predPairs.map (fun pr => (pr.1 - pr.2) ^ 2)).sum /
            (predPairs.length : ℚ)) }
    pure (acc.1 ++ rows, acc.2 ++ [statsRow]))
    (([], []) : List BtRow × List StatsRow)

/-! ### Summary Reporter (`summary`, backtester.py lines 203-244) -/

/-- Python arithmetic exceptions surfaced by `summary`. -/
inductive PyErr where
  | zeroDivisionError : PyErr
deriving DecidableEq

/-- An unguarded Python division of two exact counts: `ZeroDivisionError`
when the denominator is 0. -/
def pyDiv (a b : ℚ) : Except PyErr ℚ :=
  if b = 0 then .error .zeroDivisionError else .ok (a / b)

/-- Sample standard deviation (pandas `std`, `ddof=1`); NaN for fewer than two
observations. -/
noncomputable def sampleStd (xs : List ℚ) : Option ℝ :=
  if xs.length ≤ 1 then none
  else
    let m := xs.sum / (xs.length : ℚ)
    some (Real.sqrt (((xs.map (fun v => (v - m) ^ 2)).sum / ((xs.length : ℚ) - 1) : ℚ) : ℝ))

/-- `np.corrcoef` of alpha against a PnL column over the traded rows: NaN
(`none`) when there are no trades or the column has a NaN entry. -/
noncomputable def corr_alpha_with (trades : List PnlRow) (f : PnlRow → Option ℚ) : Option ℝ :=
  if trades.length = 0 then none
  else (trades.mapM (fun p => (f p).map (fun v => (p.row.alpha, v)))).map pearsonR

/-- The whole-sample summary record. -/
structure SummaryRec where
  training_period : Nat
  trade_trigger_threshold : ℚ
  holding_period : Nat
  use_mid : Bool
  unwinding_tick_move_upper_bound : ℚ
  unwinding_tick_move_lower_bound : ℚ
  n_trades : Nat
  n_trading_days : Nat
  n_trades_per_day : ℚ
  winning_rate : ℚ
  losing_rate : ℚ
  net_winning_rate : ℚ
  net_losing_rate : ℚ
  total_pnl : ℚ
  total_net_pnl : ℚ
  avg_pnl_per_trade : Option ℚ
  avg_net_pnl_per_trade : Option ℚ
  med_pnl_per_trade : Option ℚ
  med_net_pnl_per_trade : Option ℚ
  avg_pnl_per_winning_trade : Option ℚ
  avg_pnl_per_losing_trade : Option ℚ
  avg_net_pnl_per_winning_trade : Option ℚ
  avg_net_pnl_per_losing_trade : Option ℚ
  avg_net_pnl_per_day : ℚ
  avg_pnl_per_day : ℚ
  std_pnl_per_trade : Option ℝ
  std_net_pnl_per_trade : Option ℝ
  corr_alpha_pnl : Option ℝ
  corr_alpha_net_pnl : Option ℝ

/-- `summary(btdf, config)`: aggregation over the rows with nonzero trade.
The win/loss rates divide by the raw trade count with Python `/` (a
`ZeroDivisionError` escapes when there are no trades), while the per-day
statistics use the guarded `safe_divide`.  Sums, means and medians skip NaN
entries as pandas does.  Both correlation statistics are computed from
`trades.pnl` (source lines 241-242). -/
noncomputable def summary (btdf : List PnlRow) (cfg : Config) : Except PyErr SummaryRec := do
  let trades := btdf.filter (fun p => decide (p.trade ≠ 0))
  let nT := trades.length
  let wr ← pyDiv ((trades.countP (fun p =>
    (p.pnl.map (fun v => decide (0 < v))).getD false) : ℚ)) (nT : ℚ)
  let lr ← pyDiv ((trades.countP (fun p =>
    (p.pnl.map (fun v => decide (v < 0))).getD false) : ℚ)) (nT : ℚ)
  let nwr ← pyDiv ((trades.countP (fun p =>
    (p.net_pnl.map (fun v => decide (0 < v))).getD false) : ℚ)) (nT : ℚ)
  let nlr ← pyDiv ((trades.countP (fun p =>
    (p.net_pnl.map (fun v => decide (v < 0))).getD false) : ℚ)) (nT : ℚ)
  let nDays := (trades.map (fun p => p.row.date)).dedup.length
  let pnls := trades.filterMap (fun p => p.pnl)
  let nets := trades.filterMap (fun p => p.net_pnl)
  pure
    { training_period := cfg.training_period,
      trade_trigger_threshold := cfg.trade_trigger_threshold.2,
      holding_period := cfg.holding_period,
      use_mid := cfg.use_mid,
      unwinding_tick_move_upper_bound := cfg.unwinding_tick_move_upper_bound,
      unwinding_tick_move_lower_bound := cfg.unwinding_tick_move_lower_bound,
      n_trades := nT,
      n_trading_days := nDays,
      n_trades_per_day := safe_divide (nT : ℚ) (nDays : ℚ),
      winning_rate := wr,
      losing_rate := lr,
      net_winning_rate := nwr,
      net_losing_rate := nlr,
      total_pnl := pnls.sum,
      total_net_pnl := nets.sum,
      avg_pnl_per_trade := meanOpt pnls,
      avg_net_pnl_per_trade := meanOpt nets,
      med_pnl_per_trade := medianOpt pnls,
      med_net_pnl_per_trade := medianOpt nets,
      avg_pnl_per_winning_trade := meanOpt (pnls.filter (fun v => decide (0 < v))),
      avg_pnl_per_losing_trade := meanOpt (pnls.filter (fun v => decide (v < 0))),
      avg_net_pnl_per_winning_trade := meanOpt (nets.filter (fun v => decide (0 < v))),
      avg_net_pnl_per_losing_trade := meanOpt (nets.filter (fun v => decide (v < 0))),
      avg_net_pnl_per_day := safe_divide nets.sum (nDays : ℚ),
      avg_pnl_per_day := safe_divide pnls.sum (nDays : ℚ),
      std_pnl_per_trade := sampleStd pnls,
      std_net_pnl_per_trade := sampleStd nets,
      corr_alpha_pnl := corr_alpha_with trades (fun p => p.pnl),
      corr_alpha_net_pnl := corr_alpha_with trades (fun p => p.pnl) }

/-- Decidable equality for `Except` results (used to evaluate the concrete
runs by `decide`). -/
instance instDecEqExcept {ε α : Type} [DecidableEq ε] [DecidableEq α] :
    DecidableEq (Except ε α) := fun a b =>
  match a, b with
  | .error e1, .error e2 =>
    if h : e1 = e2 then isTrue (by rw [h])
    else isFalse (by intro hc; cases hc; exact h rfl)
  | .ok v1, .ok v2 =>
    if h : v1 = v2 then isTrue (by rw [h])
    else isFalse (by intro hc; cases hc; exact h rfl)
  | .error _, .ok _ => isFalse (by intro hc; cases hc)
  | .ok _, .error _ => isFalse (by intro hc; cases hc)

/-! ### Concrete inputs used by the scenario conclusions and the witnesses -/

/-- The single feature column of the concrete runs (base name `f`, horizon 1). -/
def colF : MovingColumn := ("f", 1, 0)

/-- The forward response column of the concrete runs (holding period 60). -/
def colR : MovingColumn := ("r", 0, 60)

/-- A tick row of the concrete runs: date, second, feature cell, response cell. -/
def mkRow (d s : Nat) (x y : Option ℚ) : Row :=
  { date := d, second := s, b1 := 10, s1 := 11, mid := 21 / 2,
    feat := fun c => if c = colF then x else if c = colR then y else none }

/-- The concrete configuration of the scenario runs: one feature with one
candidate horizon, `training_period = 2`, holding period 60, wide-open
winsorization and trading-window parameters. -/
def cfgC : Config :=
  { response_column := "r", feature_column := ["f"], feature_freq := [1],
    feature_winsorize_prob := fun _ => (0, 1),
    feature_winsorize_bound := fun _ => (-1000, 1000),
    response_winsorize_prob := (0, 1), response_winsorize_bound := (-1000, 1000),
    training_period := 2, holding_period := 60,
    trade_trigger_threshold := (-1, 1), start_second := 0, end_second := 100000,
    use_mid := false, dynamic_unwinding := false,
    unwinding_tick_move_upper_bound := 2, unwinding_tick_move_lower_bound := -2,
    tick_size := 1 / 2, transaction_fee := 1 / 1000 }

/-- Three trading dates, one tick each, with fully populated feature and
response cells: the walk-forward scenario input. -/
def pxC : List Row :=
  [mkRow 1 100 (some 1) (some 1), mkRow 2 100 (some 1) (some 1),
    mkRow 3 100 (some 1) (some 1)]

/-- Three trading dates whose first two have no response observation at all:
the training data of the single evaluation day is empty after dropping
missing values, so its fit fails. -/
def pxFail : List Row :=
  [mkRow 1 100 (some 1) none, mkRow 2 100 (some 1) none,
    mkRow 3 100 (some 1) (some 1)]

/-- A backtest-table row used by the concrete witness tables. -/
def mkBt (d s : Nat) (vb1 vs1 vmid valpha : ℚ) : BtRow :=
  { date := d, second := s, b1 := vb1, s1 := vs1, mid := vmid, resp := none,
    alpha := valpha }

/-- A two-tick single-date table with one buy trade, used by the pricing and
PnL witnesses. -/
def btdfW : List (BtRow × Int) :=
  [(mkBt 1 100 9 11 10 5, 1), (mkBt 1 160 19 21 20 0, 0)]

/-- The `pnl` output row of the traded tick of `btdfW` under `cfgC`. -/
def pW : PnlRow :=
  { row := mkBt 1 100 9 11 10 5, trade := 1, open_price := 11,
    matched_close_second := some 160, close_b1 := some 19, close_s1 := some 21,
    close_mid := some 20, close_price := some 19, pnl := some 8,
    transaction_fee := some (3 / 100), net_pnl := some (797 / 100) }

/-- A three-tick single-date table with one traded row whose unwind threshold
is breached at the third tick, used by the dynamic-unwind witness. -/
def btdfD : List (BtRow × Int) :=
  [(mkBt 1 100 9 11 10 5, 1), (mkBt 1 160 19 21 (21 / 2) 0, 0),
    (mkBt 1 200 29 31 14 0, 0)]

/-- The one-column design matrix of the estimation witness. -/
def xW : Matrix (Fin 1) (Fin 1) ℚ := Matrix.of fun _ _ => 2

/-- The response vector of the estimation witness. -/
def yW : Fin 1 → ℚ := fun _ => 3

/-! ## Theorems -/

/-- The executable Laplace determinant agrees with the Mathlib determinant. -/
theorem detExec_eq_det : ∀ {k : Nat} (A : Matrix (Fin k) (Fin k) ℚ), detExec A = A.det
  | 0, A => by simp [detExec, Matrix.det_fin_zero]
  | k + 1, A => by
    rw [Matrix.det_succ_row_zero]
    simp only [detExec]
    exact Finset.sum_congr rfl (fun j _ => by rw [detExec_eq_det])

/-- Congruence for `flatMap` over the members of the outer list. -/
theorem flatMap_congr_mem {α β : Type} (D : List α) (g h : α → List β)
    (hgh : ∀ d ∈ D, g d = h d) : D.flatMap g = D.flatMap h := by
  induction D with
  | nil => rfl
  | cons d D2 ih =>
    rw [List.flatMap_cons, List.flatMap_cons, hgh d (List.mem_cons_self d D2),
      ih (fun e he => hgh e (List.mem_cons_of_mem d he))]

/-- The head of a `dropWhile` result fails the predicate. -/
theorem dropWhile_head_false {α : Type} (p : α → Bool) (l : List α) (x : α) (xs : List α)
    (h : l.dropWhile p = x :: xs) : p x = false := by
  have hh := List.head?_dropWhile_not p l
  rw [h] at hh
  exact hh

/-- A list that is weakly sorted on a key is reconstructed by concatenating
its key-fibers over any strictly sorted enumeration of its keys. -/
theorem flatMap_filter_partition {α : Type} (f : α → Nat) :
    ∀ (D : List Nat) (l : List α), D.Pairwise (· < ·) →
      l.Pairwise (fun a b => f a ≤ f b) → (∀ a ∈ l, f a ∈ D) →
      D.flatMap (fun d => l.filter (fun a => decide (f a = d))) = l
  | [], l, _, _, hmem => by
    cases l with
    | nil => rfl
    | cons a l2 => exact absurd (hmem a (List.mem_cons_self a l2)) (List.not_mem_nil _)
  | d :: D2, l, hD, hl, hmem => by
    have hpcons := List.pairwise_cons.mp hD
    have hsplit := List.takeWhile_append_dropWhile (fun a => decide (f a = d)) l
    have hgt : ∀ a ∈ l.dropWhile (fun a => decide (f a = d)), d < f a := by
      cases hdw : l.dropWhile (fun a => decide (f a = d)) with
      | nil => intro a ha; exact absurd ha (List.not_mem_nil _)
      | cons x xs =>
        have hPx : decide (f x = d) = false := dropWhile_head_false _ l x xs hdw
        have hxne : f x ≠ d := by simpa using hPx
        have hsub : (x :: xs).Sublist l := by
          rw [← hdw]
          exact List.dropWhile_sublist _
        have hxl : x ∈ l := hsub.subset (List.mem_cons_self x xs)
        have hfx : d < f x := by
          rcases List.mem_cons.mp (hmem x hxl) with h1 | h2
          · exact absurd h1 hxne
          · exact hpcons.1 (f x) h2
        intro a ha
        rcases List.mem_cons.mp ha with rfl | has
        · exact hfx
        · have hpw := List.Pairwise.sublist hsub hl
          exact lt_of_lt_of_le hfx ((List.pairwise_cons.mp hpw).1 a has)
    have htake : (l.takeWhile (fun a => decide (f a = d))).filter
        (fun a => decide (f a = d)) = l.takeWhile (fun a => decide (f a = d)) :=
      List.filter_eq_self.mpr (fun a ha =>
        @List.mem_takeWhile_imp _ (fun a => decide (f a = d)) l a ha)
    have hdropnil : (l.dropWhile (fun a => decide (f a = d))).filter
        (fun a => decide (f a = d)) = [] :=
      List.filter_eq_nil_iff.mpr (fun a ha => by
        have := hgt a ha
        simp only [decide_eq_true_eq]
        omega)
    have hfil_d : l.filter (fun a => decide (f a = d)) =
        l.takeWhile (fun a => decide (f a = d)) := by
      conv_lhs => rw [← hsplit]
      rw [List.filter_append, htake, hdropnil, List.append_nil]
    have hdropmem : ∀ a ∈ l.dropWhile (fun a => decide (f a = d)), f a ∈ D2 := by
      intro a ha
      rcases List.mem_cons.mp (hmem a ((List.dropWhile_sublist _).subset ha)) with h1 | h2
      · exact absurd h1 (by have := hgt a ha; omega)
      · exact h2
    have hdroppw : (l.dropWhile (fun a => decide (f a = d))).Pairwise
        (fun a b => f a ≤ f b) :=
      List.Pairwise.sublist (List.dropWhile_sublist _) hl
    have hrest : ∀ e ∈ D2, l.filter (fun a => decide (f a = e)) =
        (l.dropWhile (fun a => decide (f a = d))).filter (fun a => decide (f a = e)) := by
      intro e he
      have htakenil : (l.takeWhile (fun a => decide (f a = d))).filter
          (fun a => decide (f a = e)) = [] :=
        List.filter_eq_nil_iff.mpr (fun a ha => by
          have h1 : f a = d := by
            simpa using @List.mem_takeWhile_imp _ (fun a => decide (f a = d)) l a ha
          have h2 : d < e := hpcons.1 e he
          simp only [decide_eq_true_eq]
          omega)
      conv_lhs => rw [← hsplit]
      rw [List.filter_append, htakenil, List.nil_append]
    rw [List.flatMap_cons, hfil_d, flatMap_congr_mem D2 _ _ hrest,
      flatMap_filter_partition f D2 (l.dropWhile (fun a => decide (f a = d)))
        hpcons.2 hdroppw hdropmem]
    exact hsplit

/-- Membership in the sorted distinct key list. -/
theorem mem_sortedDatesBy {α : Type} (f : α → Nat) (l : List α) (d : Nat) :
    d ∈ sortedDatesBy f l ↔ ∃ a ∈ l, f a = d := by
  unfold sortedDatesBy
  rw [(List.perm_insertionSort _ _).mem_iff, List.mem_dedup, List.mem_map]

/-- The sorted distinct key list is strictly increasing. -/
theorem sortedDatesBy_pairwise_lt {α : Type} (f : α → Nat) (l : List α) :
    (sortedDatesBy f l).Pairwise (· < ·) := by
  have hs : (sortedDatesBy f l).Sorted (· ≤ ·) := List.sorted_insertionSort _ _
  have hnd : (sortedDatesBy f l).Nodup :=
    ((List.perm_insertionSort (· ≤ ·) ((l.map f).dedup)).nodup_iff).mpr (List.nodup_dedup _)
  exact (hs.and hnd).imp (fun h => lt_of_le_of_ne h.1 h.2)

/-- Reconstruction of a date-sorted table from its per-date slices. -/
theorem flatMap_filter_sortedDates {α : Type} (f : α → Nat) (l : List α)
    (hl : l.Pairwise (fun a b => f a ≤ f b)) :
    (sortedDatesBy f l).flatMap (fun d => l.filter (fun a => decide (f a = d))) = l :=
  flatMap_filter_partition f _ l (sortedDatesBy_pairwise_lt f l) hl
    (fun a ha => (mem_sortedDatesBy f l (f a)).mpr ⟨a, ha, rfl⟩)

/-- `zip` distributes over `flatMap` when the chunk lengths agree. -/
theorem zip_flatMap_eq {α β : Type} (g : Nat → List α) (gb : Nat → List β) :
    ∀ (D : List Nat), (∀ d ∈ D, (g d).length = (gb d).length) →
      (D.flatMap g).zip (D.flatMap gb) = D.flatMap (fun d => (g d).zip (gb d))
  | [], _ => rfl
  | d :: D2, hlen => by
    rw [List.flatMap_cons, List.flatMap_cons, List.flatMap_cons,
      List.zip_append (hlen d (List.mem_cons_self d D2)),
      zip_flatMap_eq g gb D2 (fun e he => hlen e (List.mem_cons_of_mem d he))]

/-- Zipping a list with its own image. -/
theorem zip_map_self {α β : Type} (l : List α) (k : α → β) :
    l.zip (l.map k) = l.map (fun a => (a, k a)) := by
  induction l with
  | nil => rfl
  | cons a l2 ih => rw [List.map_cons, List.zip_cons_cons, ih, List.map_cons]

/-- A member of `l.zip ((range l.length).map f)` is a row together with the
value of `f` at its position. -/
theorem zip_range_map_mem {α β : Type} (dflt : α) :
    ∀ (l : List α) (fb : Nat → β) (pr : α × β),
      pr ∈ l.zip ((List.range l.length).map fb) →
      ∃ i, i < l.length ∧ pr.1 = l.getD i dflt ∧ pr.2 = fb i
  | [], _, pr, h => absurd h (List.not_mem_nil pr)
  | a :: l2, fb, pr, h => by
    rw [List.length_cons, List.range_succ_eq_map, List.map_cons, List.map_map,
      List.zip_cons_cons] at h
    rcases List.mem_cons.mp h with rfl | h2
    · exact ⟨0, Nat.succ_pos _, rfl, rfl⟩
    · obtain ⟨i, hi, h1, hsnd⟩ := zip_range_map_mem dflt l2 (fun j => fb (Nat.succ j)) pr h2
      exact ⟨i + 1, by rw [List.length_cons]; omega,
        by simpa [List.getD_cons_succ] using h1, hsnd⟩

/-- `getLastD` of a nonempty list does not depend on the default. -/
theorem getLastD_irrel {α : Type} : ∀ (b : α) (l : List α) (d1 d2 : α),
    (b :: l).getLastD d1 = (b :: l).getLastD d2
  | _, [], _, _ => rfl
  | b, c :: l2, d1, d2 => by
    simp only [List.getLastD_cons]

/-- The clamped `searchsorted` lookup of the fixed-horizon matcher equals the
first element at or past the target, or the last element when none exists. -/
theorem searchsorted_clamp : ∀ (secs : List Nat) (t : Nat), secs ≠ [] →
    secs.getD (if searchsortedLeft secs t = secs.length then secs.length - 1
      else searchsortedLeft secs t) 0 =
    (match secs.find? (fun s => decide (t ≤ s)) with
     | some s => s
     | none => secs.getLastD 0)
  | [], _, h => absurd rfl h
  | a :: rest, t, _ => by
    by_cases hat : a < t
    · have hlt : decide (a < t) = true := decide_eq_true hat
      have hge : ¬(decide (t ≤ a) = true) := by
        simp only [decide_eq_true_eq]
        omega
      cases rest with
      | nil =>
        rw [@List.find?_cons_of_neg _ (fun s => decide (t ≤ s)) a [] hge]
        simp [searchsortedLeft, hlt]
      | cons b rest2 =>
        have ih := searchsorted_clamp (b :: rest2) t (by simp)
        have hidx : searchsortedLeft (a :: b :: rest2) t =
            searchsortedLeft (b :: rest2) t + 1 := by
          simp [searchsortedLeft, List.takeWhile_cons, hlt]
        have hfind : (a :: b :: rest2).find? (fun s => decide (t ≤ s)) =
            (b :: rest2).find? (fun s => decide (t ≤ s)) :=
          @List.find?_cons_of_neg _ (fun s => decide (t ≤ s)) a (b :: rest2) hge
        have hlast : (a :: b :: rest2).getLastD 0 = (b :: rest2).getLastD 0 := by
          rw [List.getLastD_cons]
          exact getLastD_irrel b rest2 a 0
        rw [hfind]
        simp only [hlast]
        rw [← ih, hidx]
        by_cases hml : searchsortedLeft (b :: rest2) t = (b :: rest2).length
        · rw [if_pos (by rw [hml]; rfl), if_pos hml]
          have h2 : (a :: b :: rest2).length - 1 = (b :: rest2).length := by
            rw [List.length_cons, Nat.add_sub_cancel]
          rw [h2]
          have h3 : (b :: rest2).length = ((b :: rest2).length - 1) + 1 := by
            rw [List.length_cons, Nat.add_sub_cancel]
          conv_lhs =>
            rw [h3]
          rw [List.getD_cons_succ]
        · rw [if_neg (by
              simp only [List.length_cons] at hml ⊢
              omega),
            if_neg hml, List.getD_cons_succ]
    · have hge : decide (t ≤ a) = true := decide_eq_true (by omega)
      have hlt : decide (a < t) = false := by
        simp only [decide_eq_false_iff_not]
        omega
      have hidx : searchsortedLeft (a :: rest) t = 0 := by
        simp [searchsortedLeft, List.takeWhile_cons, hlt]
      rw [hidx, @List.find?_cons_of_pos _ (fun s => decide (t ≤ s)) a rest hge,
        if_neg (by simp)]
      rfl

/-- In a list that is pairwise `R`, `find?` returns the member `x` whenever
`x` satisfies the predicate and `R`-related pairs cannot both satisfy it. -/
theorem find_first_unique {α : Type} (l : List α) (q : α → Bool) (R : α → α → Prop)
    (hpw : l.Pairwise R) (x : α) (hx : x ∈ l) (hqx : q x = true)
    (hkey : ∀ a b, R a b → q a = true → q b = true → False) :
    l.find? q = some x := by
  induction l with
  | nil => cases hx
  | cons a l ih =>
    rw [List.pairwise_cons] at hpw
    rcases List.mem_cons.mp hx with rfl | hx2
    · rw [List.find?_cons_of_pos _ hqx]
    · cases hqa : q a with
      | true => exact absurd (hkey a x (hpw.1 x hx2) hqa hqx) not_false
      | false =>
        rw [List.find?_cons_of_neg _ (by simp [hqa])]
        exact ih hpw.2 hx2

/-- Claim C3: under the fixed-horizon policy, the matched close second of
every row is the second of the first tick of the same date at or past the
row's second plus the holding period, or the date's last tick second when no
such tick exists.  The table is ordered by (date, second) as in the tick data
model; the output column is positionally aligned with the rows (`zip`). -/
theorem claim_C3_fixed_horizon_close (btdf : List (BtRow × Int)) (cfg : Config)
    (hs : btdf.Pairwise rowLexLt) :
    ∀ pr ∈ btdf.zip (get_fixed_period_close_second btdf cfg),
      pr.2 = (match ((dateGroup btdf pr.1.1.date).map (fun rt2 => rt2.1.second)).find?
          (fun s => decide (pr.1.1.second + cfg.holding_period ≤ s)) with
        | some s => s
        | none => ((dateGroup btdf pr.1.1.date).map (fun rt2 => rt2.1.second)).getLastD 0) := by
  intro pr hpr
  have hweak : btdf.Pairwise (fun a b => (fun rt : BtRow × Int => rt.1.date) a ≤
      (fun rt : BtRow × Int => rt.1.date) b) := by
    refine hs.imp ?_
    intro a b hab
    dsimp only
    rcases hab with h1 | ⟨h2, _⟩ <;> omega
  have hrecon2 : (sortedDatesBy (fun rt : BtRow × Int => rt.1.date) btdf).flatMap
      (fun d => dateGroup btdf d) = btdf :=
    flatMap_filter_sortedDates (fun rt : BtRow × Int => rt.1.date) btdf hweak
  have hfix2 : get_fixed_period_close_second btdf cfg =
      (sortedDatesBy (fun rt : BtRow × Int => rt.1.date) btdf).flatMap
        (fun d => (dateGroup btdf d).map (fun rt =>
          ((dateGroup btdf d).map (fun rt2 => rt2.1.second)).getD
            (if searchsortedLeft ((dateGroup btdf d).map (fun rt2 => rt2.1.second))
                (rt.1.second + cfg.holding_period) =
                ((dateGroup btdf d).map (fun rt2 => rt2.1.second)).length
              then ((dateGroup btdf d).map (fun rt2 => rt2.1.second)).length - 1
              else searchsortedLeft ((dateGroup btdf d).map (fun rt2 => rt2.1.second))
                (rt.1.second + cfg.holding_period)) 0)) := rfl
  have hzip : btdf.zip (get_fixed_period_close_second btdf cfg) =
      (sortedDatesBy (fun rt : BtRow × Int => rt.1.date) btdf).flatMap
        (fun d => (dateGroup btdf d).map (fun rt =>
          (rt, ((dateGroup btdf d).map (fun rt2 => rt2.1.second)).getD
            (if searchsortedLeft ((dateGroup btdf d).map (fun rt2 => rt2.1.second))
                (rt.1.second + cfg.holding_period) =
                ((dateGroup btdf d).map (fun rt2 => rt2.1.second)).length
              then ((dateGroup btdf d).map (fun rt2 => rt2.1.second)).length - 1
              else searchsortedLeft ((dateGroup btdf d).map (fun rt2 => rt2.1.second))
                (rt.1.second + cfg.holding_period)) 0))) := by
    nth_rewrite 1 [← hrecon2]
    rw [hfix2, zip_flatMap_eq _ _ _ (fun d _ => (List.length_map _ _).symm)]
    exact flatMap_congr_mem _ _ _ (fun d _ => zip_map_self _ _)
  rw [hzip] at hpr
  obtain ⟨d, hdD, hpr2⟩ := List.mem_flatMap.mp hpr
  obtain ⟨rt, hrt, rfl⟩ := List.mem_map.mp hpr2
  have hdate : rt.1.date = d := by
    simpa using (List.mem_filter.mp hrt).2
  subst hdate
  have hne : (dateGroup btdf rt.1.date).map (fun rt2 => rt2.1.second) ≠ [] := by
    intro hc
    rw [List.map_eq_nil_iff] at hc
    rw [hc] at hrt
    exact absurd hrt (List.not_mem_nil rt)
  exact searchsorted_clamp _ _ hne

/-- Witness for C3 at the concrete two-tick table. -/
theorem claim_C3_fixed_horizon_close_witness :
    btdfW.Pairwise rowLexLt ∧
    (∀ pr ∈ btdfW.zip (get_fixed_period_close_second btdfW cfgC),
      pr.2 = (match ((dateGroup btdfW pr.1.1.date).map (fun rt2 => rt2.1.second)).find?
          (fun s => decide (pr.1.1.second + cfgC.holding_period ≤ s)) with
        | some s => s
        | none => ((dateGroup btdfW pr.1.1.date).map (fun rt2 => rt2.1.second)).getLastD 0)) :=
  ⟨by decide, claim_C3_fixed_horizon_close btdfW cfgC (by decide)⟩

/-- Sorted distinct keys of a key-filtered table are the filtered sorted
distinct keys. -/
theorem sortedDatesBy_filter {α : Type} (f : α → Nat) (q : Nat → Bool) (l : List α) :
    sortedDatesBy f (l.filter (fun a => q (f a))) = (sortedDatesBy f l).filter q := by
  have hnd1 : (sortedDatesBy f (l.filter (fun a => q (f a)))).Nodup :=
    (sortedDatesBy_pairwise_lt _ _).imp (fun h => Nat.ne_of_lt h)
  have hnd2 : ((sortedDatesBy f l).filter q).Nodup :=
    List.Nodup.filter _ ((sortedDatesBy_pairwise_lt f l).imp (fun h => Nat.ne_of_lt h))
  have hperm : (sortedDatesBy f (l.filter (fun a => q (f a)))).Perm
      ((sortedDatesBy f l).filter q) := by
    rw [List.perm_ext_iff_of_nodup hnd1 hnd2]
    intro d
    rw [mem_sortedDatesBy, List.mem_filter, mem_sortedDatesBy]
    constructor
    · rintro ⟨b, hb, rfl⟩
      have hb2 := List.mem_filter.mp hb
      exact ⟨⟨b, hb2.1, rfl⟩, hb2.2⟩
    · rintro ⟨⟨b, hb, rfl⟩, hq⟩
      exact ⟨b, List.mem_filter.mpr ⟨hb, hq⟩, rfl⟩
  exact List.eq_of_perm_of_sorted hperm
    (List.Sorted.le_of_lt (sortedDatesBy_pairwise_lt _ _))
    (List.Sorted.le_of_lt
      (List.Pairwise.sublist (List.filter_sublist _) (sortedDatesBy_pairwise_lt f l)))

/-- The slice of a strictly increasing list between two of its own entries:
filtering to the half-open value range `[D_a, D_i)` keeps exactly positions
`a` to `i - 1`. -/
theorem filter_segment_of_pairwise_lt (D : List Nat) (hD : D.Pairwise (· < ·))
    (a i : Nat) (hai : a ≤ i) (hi : i < D.length) :
    D.filter (fun d => decide (D.getD a 0 ≤ d) && decide (d < D.getD i 0)) =
      (D.drop a).take (i - a) := by
  have ha : a < D.length := Nat.lt_of_le_of_lt hai hi
  have hpg := List.pairwise_iff_getElem.mp hD
  have hgda : D.getD a 0 = D[a] := List.getD_eq_getElem D 0 ha
  have hgdi : D.getD i 0 = D[i] := List.getD_eq_getElem D 0 hi
  set p : Nat → Bool := fun d =>
    decide (D.getD a 0 ≤ d) && decide (d < D.getD i 0) with hp
  have F1 : ∀ x ∈ D.take a, ¬(p x = true) := by
    intro x hx
    obtain ⟨j, hj, hjx⟩ := List.mem_iff_getElem.mp hx
    have hja : j < a := by
      rw [List.length_take] at hj
      omega
    rw [List.getElem_take] at hjx
    have hlt1 : D[j] < D[a] := hpg j a (by omega) ha hja
    subst hjx
    rw [hp]
    simp only [Bool.and_eq_true, decide_eq_true_eq, not_and]
    intro hcon
    rw [hgda] at hcon
    omega
  have F2 : ∀ x ∈ (D.drop a).take (i - a), p x = true := by
    intro x hx
    obtain ⟨j, hj, hjx⟩ := List.mem_iff_getElem.mp hx
    have hjb : j < i - a ∧ a + j < D.length := by
      rw [List.length_take, List.length_drop] at hj
      omega
    rw [List.getElem_take, List.getElem_drop] at hjx
    subst hjx
    have hle : D[a] ≤ D[a + j] := by
      rcases Nat.eq_or_lt_of_le (Nat.le_add_right a j) with heq | hlt
      · exact le_of_eq (by congr 1)
      · exact le_of_lt (hpg a (a + j) ha hjb.2 hlt)
    have hltt : D[a + j] < D[i] := hpg (a + j) i hjb.2 hi (by omega)
    rw [hp]
    simp only [Bool.and_eq_true, decide_eq_true_eq]
    rw [hgda, hgdi]
    exact ⟨hle, hltt⟩
  have F3 : ∀ x ∈ D.drop i, ¬(p x = true) := by
    intro x hx
    obtain ⟨j, hj, hjx⟩ := List.mem_iff_getElem.mp hx
    have hjb : i + j < D.length := by
      rw [List.length_drop] at hj
      omega
    rw [List.getElem_drop] at hjx
    subst hjx
    have hle : D[i] ≤ D[i + j] := by
      rcases Nat.eq_or_lt_of_le (Nat.le_add_right i j) with heq | hlt
      · exact le_of_eq (by congr 1)
      · exact le_of_lt (hpg i (i + j) hi hjb hlt)
    rw [hp]
    simp only [Bool.and_eq_true, decide_eq_true_eq, not_and]
    intro _
    rw [hgdi]
    omega
  have hsplit : D = D.take a ++ ((D.drop a).take (i - a) ++ D.drop i) := by
    conv_lhs => rw [← List.take_append_drop a D]
    congr 1
    conv_lhs => rw [← List.take_append_drop (i - a) (D.drop a)]
    rw [List.drop_drop, Nat.add_sub_cancel' hai]
  nth_rewrite 1 [hsplit]
  rw [List.filter_append, List.filter_append, List.filter_eq_nil_iff.mpr F1,
    List.filter_eq_self.mpr F2, List.filter_eq_nil_iff.mpr F3,
    List.nil_append, List.append_nil]

/-- The head of a filtered `range` is the least index satisfying the
predicate. -/
theorem range_filter_props (n : Nat) (P : Nat → Bool) (j : Nat) (rest : List Nat)
    (h : (List.range n).filter P = j :: rest) :
    j < n ∧ P j = true ∧ ∀ k, k < j → P k = false := by
  have hmemj : j ∈ (List.range n).filter P := by
    rw [h]
    exact List.mem_cons_self _ _
  have h1 := List.mem_filter.mp hmemj
  have hjn := List.mem_range.mp h1.1
  refine ⟨hjn, h1.2, ?_⟩
  intro k hk
  by_contra hc
  rw [Bool.not_eq_false] at hc
  have hkmem : k ∈ (List.range n).filter P :=
    List.mem_filter.mpr ⟨List.mem_range.mpr (by omega), hc⟩
  rw [h] at hkmem
  have hpw : (j :: rest).Pairwise (· < ·) := by
    rw [← h]
    exact List.Pairwise.sublist (List.filter_sublist _) (List.pairwise_lt_range n)
  rcases List.mem_cons.mp hkmem with rfl | hkr
  · omega
  · have := (List.pairwise_cons.mp hpw).1 k hkr
    omega

/-- An empty filtered `range` means no index satisfies the predicate. -/
theorem range_filter_nil (n : Nat) (P : Nat → Bool)
    (h : (List.range n).filter P = []) : ∀ k, k < n → P k = false := by
  intro k hk
  by_contra hc
  rw [Bool.not_eq_false] at hc
  have : k ∈ (List.range n).filter P :=
    List.mem_filter.mpr ⟨List.mem_range.mpr hk, hc⟩
  rw [h] at this
  exact absurd this (List.not_mem_nil k)

/-- Positional lookups in a strictly lex-ordered slice are injective. -/
theorem getD_inj_of_pairwise (l : List (BtRow × Int)) (hpw : l.Pairwise rowLexLt)
    (i1 i2 : Nat) (h1 : i1 < l.length) (h2 : i2 < l.length)
    (he : l.getD i1 (defaultBtRow, 0) = l.getD i2 (defaultBtRow, 0)) : i1 = i2 := by
  by_contra hne
  have hlex : ∀ a b : BtRow × Int, rowLexLt a b → a ≠ b := by
    intro a b hab hEq
    rcases hab with hh | ⟨_, hh⟩ <;> (rw [hEq] at hh; omega)
  rcases Nat.lt_or_ge i1 i2 with hlt | hge
  · have hrel := List.pairwise_iff_getElem.mp hpw i1 i2 h1 h2 hlt
    rw [List.getD_eq_getElem l _ h1, List.getD_eq_getElem l _ h2] at he
    exact hlex _ _ hrel he
  · have hlt2 : i2 < i1 := by omega
    have hrel := List.pairwise_iff_getElem.mp hpw i2 i1 h2 h1 hlt2
    rw [List.getD_eq_getElem l _ h1, List.getD_eq_getElem l _ h2] at he
    exact hlex _ _ hrel he.symm

/-- Claim C4: under the dynamic-unwind policy, a row with zero trade gets a
null matched close second, and a traded row at position `i` of its date slice
is matched to the first strictly later row of the slice whose mid-price move
from the open mid (in tick-size units) breaches the unwinding band, or to the
slice's last row when no later row breaches.  The table is ordered by
(date, second) as in the tick data model. -/
theorem claim_C4_dynamic_unwind_close (btdf : List (BtRow × Int)) (cfg : Config)
    (hs : btdf.Pairwise rowLexLt) :
    ∀ pr ∈ btdf.zip (get_dynamic_period_close_second btdf cfg),
      (pr.1.2 = 0 → pr.2 = none) ∧
      (pr.1.2 ≠ 0 →
        ∀ i, i < (dateGroup btdf pr.1.1.date).length →
          (dateGroup btdf pr.1.1.date).getD i (defaultBtRow, 0) = pr.1 →
          ((∃ j, i < j ∧ j < (dateGroup btdf pr.1.1.date).length ∧
              breachAt (dateGroup btdf pr.1.1.date) cfg i j ∧
              (∀ m, i < m → m < j → ¬breachAt (dateGroup btdf pr.1.1.date) cfg i m) ∧
              pr.2 = some (((dateGroup btdf pr.1.1.date).getD j
                (defaultBtRow, 0)).1.second)) ∨
           ((∀ j, i < j → j < (dateGroup btdf pr.1.1.date).length →
              ¬breachAt (dateGroup btdf pr.1.1.date) cfg i j) ∧
            pr.2 = some (((dateGroup btdf pr.1.1.date).getD
              ((dateGroup btdf pr.1.1.date).length - 1) (defaultBtRow, 0)).1.second)))) := by
  intro pr hpr
  have hweak : btdf.Pairwise (fun a b => (fun rt : BtRow × Int => rt.1.date) a ≤
      (fun rt : BtRow × Int => rt.1.date) b) := by
    refine hs.imp ?_
    intro a b hab
    dsimp only
    rcases hab with h1 | ⟨h2, _⟩ <;> omega
  have hrecon2 : (sortedDatesBy (fun rt : BtRow × Int => rt.1.date) btdf).flatMap
      (fun d => dateGroup btdf d) = btdf :=
    flatMap_filter_sortedDates (fun rt : BtRow × Int => rt.1.date) btdf hweak
  have hdyn2 : get_dynamic_period_close_second btdf cfg =
      (sortedDatesBy (fun rt : BtRow × Int => rt.1.date) btdf).flatMap
        (fun d => (List.range (dateGroup btdf d).length).map (fun i =>
          if ((dateGroup btdf d).getD i (defaultBtRow, 0)).2 = 0 then none
          else some (((dateGroup btdf d).getD (dynamic_hold (dateGroup btdf d) cfg i)
            (defaultBtRow, 0)).1.second))) := rfl
  have hzip : btdf.zip (get_dynamic_period_close_second btdf cfg) =
      (sortedDatesBy (fun rt : BtRow × Int => rt.1.date) btdf).flatMap
        (fun d => (dateGroup btdf d).zip
          ((List.range (dateGroup btdf d).length).map (fun i =>
            if ((dateGroup btdf d).getD i (defaultBtRow, 0)).2 = 0 then none
            else some (((dateGroup btdf d).getD (dynamic_hold (dateGroup btdf d) cfg i)
              (defaultBtRow, 0)).1.second)))) := by
    nth_rewrite 1 [← hrecon2]
    rw [hdyn2, zip_flatMap_eq _ _ _ (fun d _ => by
      rw [List.length_map, List.length_range])]
  rw [hzip] at hpr
  obtain ⟨d, hdD, hpr2⟩ := List.mem_flatMap.mp hpr
  obtain ⟨i0, hi0, hfst, hsnd⟩ := zip_range_map_mem (defaultBtRow, 0) (dateGroup btdf d)
    _ pr hpr2
  have hpwg : (dateGroup btdf d).Pairwise rowLexLt :=
    List.Pairwise.sublist (List.filter_sublist _) hs
  have hmem0 : (dateGroup btdf d).getD i0 (defaultBtRow, 0) ∈ dateGroup btdf d := by
    rw [List.getD_eq_getElem _ _ hi0]
    exact List.getElem_mem hi0
  have hdate : pr.1.1.date = d := by
    rw [hfst]
    simpa using (List.mem_filter.mp hmem0).2
  rw [hdate]
  constructor
  · intro ht0
    rw [hsnd, if_pos (by rw [← hfst]; exact ht0)]
  · intro htne i hi hgi
    have hii : i = i0 := getD_inj_of_pairwise _ hpwg i i0 hi hi0 (by rw [hgi, hfst])
    rw [hii]
    have ht0g : ¬(((dateGroup btdf d).getD i0 (defaultBtRow, 0)).2 = 0) := by
      rw [← hfst]
      exact htne
    rw [hsnd, if_neg ht0g]
    cases hflt : (List.range (dateGroup btdf d).length).filter (fun j =>
        (decide (cfg.unwinding_tick_move_upper_bound ≤
            (((dateGroup btdf d).getD j (defaultBtRow, 0)).1.mid -
              ((dateGroup btdf d).getD i0 (defaultBtRow, 0)).1.mid) / cfg.tick_size) ||
          decide ((((dateGroup btdf d).getD j (defaultBtRow, 0)).1.mid -
              ((dateGroup btdf d).getD i0 (defaultBtRow, 0)).1.mid) / cfg.tick_size ≤
            cfg.unwinding_tick_move_lower_bound)) && decide (i0 < j)) with
    | nil =>
      have hnone := range_filter_nil _ _ hflt
      have hdh : dynamic_hold (dateGroup btdf d) cfg i0 =
          (dateGroup btdf d).length - 1 := by
        simp only [dynamic_hold, hflt]
      right
      constructor
      · intro j hij hjlen hbr
        have hfj := hnone j hjlen
        rw [Bool.and_eq_false_iff] at hfj
        rcases hfj with hfj | hfj
        · rw [Bool.or_eq_false_iff] at hfj
          rcases hbr with hb | hb
          · rw [decide_eq_true hb] at hfj
            exact absurd hfj.1 (by simp)
          · rw [decide_eq_true hb] at hfj
            exact absurd hfj.2 (by simp)
        · rw [decide_eq_true hij] at hfj
          exact absurd hfj (by simp)
      · rw [hdh]
    | cons j rest =>
      have hdh : dynamic_hold (dateGroup btdf d) cfg i0 = j := by
        simp only [dynamic_hold, hflt]
      obtain ⟨hjlen, hPj, hmin⟩ := range_filter_props _ _ j rest hflt
      rw [Bool.and_eq_true] at hPj
      have hij : i0 < j := by
        have := hPj.2
        simpa using this
      left
      refine ⟨j, hij, hjlen, ?_, ?_, by rw [hdh]⟩
      · have := hPj.1
        rw [Bool.or_eq_true] at this
        rcases this with hh | hh
        · exact Or.inl (by simpa using hh)
        · exact Or.inr (by simpa using hh)
      · intro m him hmj hbr
        have hfm := hmin m hmj
        rw [Bool.and_eq_false_iff] at hfm
        rcases hfm with hfm | hfm
        · rw [Bool.or_eq_false_iff] at hfm
          rcases hbr with hb | hb
          · rw [decide_eq_true hb] at hfm
            exact absurd hfm.1 (by simp)
          · rw [decide_eq_true hb] at hfm
            exact absurd hfm.2 (by simp)
        · rw [decide_eq_true him] at hfm
          exact absurd hfm (by simp)

/-- Witness for C4 at the concrete three-tick table. -/
theorem claim_C4_dynamic_unwind_close_witness :
    btdfD.Pairwise rowLexLt ∧
    (∀ pr ∈ btdfD.zip (get_dynamic_period_close_second btdfD cfgC),
      (pr.1.2 = 0 → pr.2 = none) ∧
      (pr.1.2 ≠ 0 →
        ∀ i, i < (dateGroup btdfD pr.1.1.date).length →
          (dateGroup btdfD pr.1.1.date).getD i (defaultBtRow, 0) = pr.1 →
          ((∃ j, i < j ∧ j < (dateGroup btdfD pr.1.1.date).length ∧
              breachAt (dateGroup btdfD pr.1.1.date) cfgC i j ∧
              (∀ m, i < m → m < j → ¬breachAt (dateGroup btdfD pr.1.1.date) cfgC i m) ∧
              pr.2 = some (((dateGroup btdfD pr.1.1.date).getD j
                (defaultBtRow, 0)).1.second)) ∨
           ((∀ j, i < j → j < (dateGroup btdfD pr.1.1.date).length →
              ¬breachAt (dateGroup btdfD pr.1.1.date) cfgC i j) ∧
            pr.2 = some (((dateGroup btdfD pr.1.1.date).getD
              ((dateGroup btdfD pr.1.1.date).length - 1) (defaultBtRow, 0)).1.second))))) :=
  ⟨by decide, claim_C4_dynamic_unwind_close btdfD cfgC (by decide)⟩

/-- Claim C5: for every row of the backtest table, `trade` assigns `+1` iff
`alpha` exceeds the upper trigger threshold and the intraday second lies in
`[start_second, end_second]`, `-1` iff `alpha` is below the lower threshold
and the second lies in the window, and `0` otherwise; in particular every row
with a second outside the window gets trade `0` regardless of `alpha`.
(The threshold pair is a band: lower ≤ upper.) -/
theorem claim_C5_trade_signal (btdf : List BtRow) (cfg : Config)
    (h : cfg.trade_trigger_threshold.1 ≤ cfg.trade_trigger_threshold.2) :
    ∀ rt ∈ trade btdf cfg,
      (rt.2 = 1 ↔ (cfg.trade_trigger_threshold.2 < rt.1.alpha ∧
        cfg.start_second ≤ rt.1.second ∧ rt.1.second ≤ cfg.end_second)) ∧
      (rt.2 = -1 ↔ (rt.1.alpha < cfg.trade_trigger_threshold.1 ∧
        cfg.start_second ≤ rt.1.second ∧ rt.1.second ≤ cfg.end_second)) ∧
      (rt.2 = 0 ∨ rt.2 = 1 ∨ rt.2 = -1) ∧
      (¬(cfg.start_second ≤ rt.1.second ∧ rt.1.second ≤ cfg.end_second) → rt.2 = 0) := by
  intro rt hrt
  simp only [trade, List.mem_map] at hrt
  obtain ⟨r, hr, rfl⟩ := hrt
  dsimp only
  split_ifs with h1 h2 h3 h4
  · exact ⟨by constructor <;> intro hc <;> [exact absurd hc (by decide); omega],
      by constructor <;> intro hc <;> [exact absurd hc (by decide); omega],
      Or.inl rfl, fun _ => rfl⟩
  · exact ⟨by constructor <;> intro hc <;> [exact absurd hc (by decide); omega],
      by constructor <;> intro hc <;> [exact absurd hc (by decide); omega],
      Or.inl rfl, fun _ => rfl⟩
  · refine ⟨?_, ?_, Or.inr (Or.inr rfl), fun hw => absurd ⟨by omega, by omega⟩ hw⟩
    · constructor
      · intro hc; exact absurd hc (by decide)
      · rintro ⟨hup, -⟩; exact absurd (lt_trans (lt_of_le_of_lt h hup) h3) (lt_irrefl _)
    · exact ⟨fun _ => ⟨h3, by omega, by omega⟩, fun _ => rfl⟩
  · refine ⟨?_, ?_, Or.inr (Or.inl rfl), fun hw => absurd ⟨by omega, by omega⟩ hw⟩
    · exact ⟨fun _ => ⟨h4, by omega, by omega⟩, fun _ => rfl⟩
    · constructor
      · intro hc; exact absurd hc (by decide)
      · rintro ⟨hlo, -⟩; exact absurd hlo h3
  · refine ⟨?_, ?_, Or.inl rfl, fun _ => rfl⟩
    · constructor
      · intro hc; exact absurd hc (by decide)
      · rintro ⟨hup, -⟩; exact absurd hup h4
    · constructor
      · intro hc; exact absurd hc (by decide)
      · rintro ⟨hlo, -⟩; exact absurd hlo h3

/-- Witness for C5 at the concrete configuration and a one-row table. -/
theorem claim_C5_trade_signal_witness :
    (cfgC.trade_trigger_threshold.1 ≤ cfgC.trade_trigger_threshold.2) ∧
    (∀ rt ∈ trade [mkBt 1 100 9 11 10 5] cfgC,
      (rt.2 = 1 ↔ (cfgC.trade_trigger_threshold.2 < rt.1.alpha ∧
        cfgC.start_second ≤ rt.1.second ∧ rt.1.second ≤ cfgC.end_second)) ∧
      (rt.2 = -1 ↔ (rt.1.alpha < cfgC.trade_trigger_threshold.1 ∧
        cfgC.start_second ≤ rt.1.second ∧ rt.1.second ≤ cfgC.end_second)) ∧
      (rt.2 = 0 ∨ rt.2 = 1 ∨ rt.2 = -1) ∧
      (¬(cfgC.start_second ≤ rt.1.second ∧ rt.1.second ≤ cfgC.end_second) → rt.2 = 0)) :=
  ⟨by decide, claim_C5_trade_signal [mkBt 1 100 9 11 10 5] cfgC (by decide)⟩

/-- Claim C6: for every traded row of the `pnl` output with a defined close
price, `pnl = trade × (close_price − open_price)`,
`transaction_fee = fee rate × |trade| × (open_price + close_price)`, and
`net_pnl = pnl − transaction_fee` exactly. -/
theorem claim_C6_pnl_formulas (btdf : List (BtRow × Int)) (cfg : Config) (p : PnlRow)
    (hp : p ∈ pnl btdf cfg) (ht : p.trade ≠ 0) (cp : ℚ) (hc : p.close_price = some cp) :
    p.pnl = some ((p.trade : ℚ) * (cp - p.open_price)) ∧
    p.transaction_fee = some (cfg.transaction_fee * |(p.trade : ℚ)| * (p.open_price + cp)) ∧
    p.net_pnl = some ((p.trade : ℚ) * (cp - p.open_price) -
      cfg.transaction_fee * |(p.trade : ℚ)| * (p.open_price + cp)) := by
  simp only [pnl, List.mem_map] at hp
  obtain ⟨rtm, hmem, rfl⟩ := hp
  dsimp only at hc ⊢
  cases hcc : left_join_close btdf rtm.1.1.date rtm.2 with
  | none => simp only [hcc, Option.map_none] at hc; exact absurd hc (by simp)
  | some c =>
    simp only [hcc, Option.map_some] at hc ⊢
    cases hc
    exact ⟨rfl, rfl, rfl⟩

/-- Witness for C6 at the concrete two-tick table. -/
theorem claim_C6_pnl_formulas_witness :
    (pW ∈ pnl btdfW cfgC ∧ pW.trade ≠ 0 ∧ pW.close_price = some 19) ∧
    (pW.pnl = some ((pW.trade : ℚ) * (19 - pW.open_price)) ∧
     pW.transaction_fee = some (cfgC.transaction_fee * |(pW.trade : ℚ)| *
       (pW.open_price + 19)) ∧
     pW.net_pnl = some ((pW.trade : ℚ) * (19 - pW.open_price) -
       cfgC.transaction_fee * |(pW.trade : ℚ)| * (pW.open_price + 19))) :=
  ⟨⟨by decide, by decide, by decide⟩,
    claim_C6_pnl_formulas btdfW cfgC pW (by decide) (by decide) 19 (by decide)⟩

/-- Claim C7: when `use_mid` is false, a buy row (`trade = +1`) opens at the
best offer `s1` of the opening tick and closes at the best bid `b1` of the
matched close tick, and symmetrically a sell row (`trade = -1`) opens at `b1`
and closes at `s1`; when `use_mid` is true both prices are the mid price.
The matched close tick is identified by its `(date, matched_close_second)`
key, unique by the tick data model. -/
theorem claim_C7_price_convention (btdf : List (BtRow × Int)) (cfg : Config)
    (huniq : btdf.Pairwise (fun a b => ¬(a.1.date = b.1.date ∧ a.1.second = b.1.second)))
    (p : PnlRow) (hp : p ∈ pnl btdf cfg) (rt : BtRow × Int) (hrt : rt ∈ btdf)
    (hdate : rt.1.date = p.row.date) (hm : p.matched_close_second = some rt.1.second) :
    (cfg.use_mid = false →
      (p.trade = 1 → p.open_price = p.row.s1 ∧ p.close_price = some rt.1.b1) ∧
      (p.trade = -1 → p.open_price = p.row.b1 ∧ p.close_price = some rt.1.s1)) ∧
    (cfg.use_mid = true →
      p.open_price = p.row.mid ∧ p.close_price = some rt.1.mid) := by
  simp only [pnl, List.mem_map] at hp
  obtain ⟨rtm, hmem, rfl⟩ := hp
  dsimp only at hdate hm ⊢
  have hfind : btdf.find? (fun x =>
      decide (x.1.date = rtm.1.1.date) && decide (x.1.second = rt.1.second)) = some rt := by
    apply find_first_unique btdf _ _ huniq rt hrt
    · simp [hdate]
    · intro a b hR hqa hqb
      simp only [Bool.and_eq_true, decide_eq_true_eq] at hqa hqb
      exact hR ⟨hqa.1.trans hqb.1.symm, hqa.2.trans hqb.2.symm⟩
  have hjoin : left_join_close btdf rtm.1.1.date rtm.2 =
      some (rt.1.b1, rt.1.s1, rt.1.mid) := by
    rw [hm]
    simp only [left_join_close, Option.some_bind, hfind, Option.map_some]
    rfl
  refine ⟨fun hmidf => ⟨fun ht1 => ?_, fun ht2 => ?_⟩, fun hmidt => ?_⟩
  · simp [hjoin, hmidf, ht1]
  · simp [hjoin, hmidf, ht2]
  · simp [hjoin, hmidt]

/-- Witness for C7 at the concrete two-tick table: the buy row opens at the
offer of its tick and closes at the bid of the matched tick. -/
theorem claim_C7_price_convention_witness :
    (btdfW.Pairwise (fun a b => ¬(a.1.date = b.1.date ∧ a.1.second = b.1.second)) ∧
      pW ∈ pnl btdfW cfgC ∧ (mkBt 1 160 19 21 20 0, (0 : Int)) ∈ btdfW ∧
      (mkBt 1 160 19 21 20 0).date = pW.row.date ∧
      pW.matched_close_second = some (mkBt 1 160 19 21 20 0).second) ∧
    ((cfgC.use_mid = false →
      (pW.trade = 1 → pW.open_price = pW.row.s1 ∧
        pW.close_price = some (mkBt 1 160 19 21 20 0).b1) ∧
      (pW.trade = -1 → pW.open_price = pW.row.b1 ∧
        pW.close_price = some (mkBt 1 160 19 21 20 0).s1)) ∧
    (cfgC.use_mid = true →
      pW.open_price = pW.row.mid ∧ pW.close_price = some (mkBt 1 160 19 21 20 0).mid)) :=
  ⟨⟨by decide, by decide, by decide, by decide, by decide⟩,
    claim_C7_price_convention btdfW cfgC (by decide) pW (by decide)
      (mkBt 1 160 19 21 20 0, 0) (by decide) (by decide) (by decide)⟩

/-- Evaluation of `pyDiv` at a zero denominator. -/
theorem pyDiv_of_den_zero (a b : ℚ) (h : b = 0) : pyDiv a b = .error .zeroDivisionError := by
  simp [pyDiv, h]

/-- Evaluation of `pyDiv` at a nonzero denominator. -/
theorem pyDiv_of_den_ne (a b : ℚ) (h : b ≠ 0) : pyDiv a b = .ok (a / b) := by
  simp [pyDiv, h]

/-- The distinct dates of the training snapshot for iteration `i` are exactly
the `training_period` distinct dates preceding date `i`. -/
theorem trainingWindow_dates (px : List Row) (cfg : Config) (i : Nat)
    (h1 : cfg.training_period ≤ i) (h2 : i < (sortedDatesBy Row.date px).length) :
    sortedDatesBy Row.date (trainingWindow px cfg i) =
      ((sortedDatesBy Row.date px).drop (i - cfg.training_period)).take
        cfg.training_period := by
  have hA : sortedDatesBy Row.date (trainingWindow px cfg i) =
      (sortedDatesBy Row.date px).filter (fun d =>
        decide ((sortedDatesBy Row.date px).getD (i - cfg.training_period) 0 ≤ d) &&
        decide (d < (sortedDatesBy Row.date px).getD i 0)) :=
    sortedDatesBy_filter Row.date
      (fun d => decide ((sortedDatesBy Row.date px).getD (i - cfg.training_period) 0 ≤ d) &&
        decide (d < (sortedDatesBy Row.date px).getD i 0)) px
  rw [hA, filter_segment_of_pairwise_lt _ (sortedDatesBy_pairwise_lt _ _) _ _
    (by omega) h2, Nat.sub_sub_self h1]

/-- Claim C1: the training snapshot built by `backtest` for evaluation
iteration `i` contains only rows dated strictly before evaluation date `i`,
and its distinct dates are exactly the `training_period` distinct dates
immediately preceding it; consequently, on the concrete series of 3 trading
dates with `training_period = 2`, the first 2 dates are never evaluated and
only the 3rd date appears in the prediction table and the fitting-stats
table. -/
theorem claim_C1_no_lookahead :
    (∀ (px : List Row) (cfg : Config) (i : Nat),
      cfg.training_period ≤ i → i < (sortedDatesBy Row.date px).length →
      (∀ r ∈ trainingWindow px cfg i, r.date < (sortedDatesBy Row.date px).getD i 0) ∧
      sortedDatesBy Row.date (trainingWindow px cfg i) =
        ((sortedDatesBy Row.date px).drop (i - cfg.training_period)).take
          cfg.training_period ∧
      (sortedDatesBy Row.date (trainingWindow px cfg i)).length = cfg.training_period) ∧
    ((backtest pxC cfgC).map (fun out => (out.1.map BtRow.date, out.2.map StatsRow.date)) =
      .ok ([3], [3])) := by
  constructor
  · intro px cfg i h1 h2
    refine ⟨?_, trainingWindow_dates px cfg i h1 h2, ?_⟩
    · intro r hr
      have hflt := (List.mem_filter.mp hr).2
      simp only [Bool.and_eq_true, decide_eq_true_eq] at hflt
      exact hflt.2
    · rw [trainingWindow_dates px cfg i h1 h2, List.length_take, List.length_drop]
      omega
  · decide

/-- Witness for C1 applied to the concrete 3-date series at iteration 2. -/
theorem claim_C1_no_lookahead_witness :
    (cfgC.training_period ≤ 2 ∧ 2 < (sortedDatesBy Row.date pxC).length) ∧
    ((∀ r ∈ trainingWindow pxC cfgC 2,
        r.date < (sortedDatesBy Row.date pxC).getD 2 0) ∧
      sortedDatesBy Row.date (trainingWindow pxC cfgC 2) =
        ((sortedDatesBy Row.date pxC).drop (2 - cfgC.training_period)).take
          cfgC.training_period ∧
      (sortedDatesBy Row.date (trainingWindow pxC cfgC 2)).length =
        cfgC.training_period) :=
  ⟨⟨by decide, by decide⟩, claim_C1_no_lookahead.1 pxC cfgC 2 (by decide) (by decide)⟩

/-- Claim C2 (code evaluated at the failing input): on a series of three
dates whose first two have no response observation, the single evaluation
day's training data is empty after dropping missing values, and the resulting
fitting failure escapes `backtest` as an exception — the walk-forward loop
aborts with no diagnostics row, instead of recording NaN diagnostics and
continuing as the specification requires. -/
theorem claim_C2_exception_escapes :
    backtest pxFail cfgC = .error .emptyTrainingData := by
  rfl

/-- Claim C8: on nonempty, nonsingular preprocessed data, `fit`'s estimation
core performs no-intercept ordinary least squares (the coefficients satisfy
the normal equations `XᵀX·β = Xᵀy`), computes the residual MSE with
denominator `n − p` where `p` is the number of selected features (the
suppressed intercept adds no degree of freedom), reports t-statistics as
coefficient over the standard error from the diagonal of `MSE·(XᵀX)⁻¹`, and
degrees of freedom `df_1 = p − 1` and `df_2 = n − p`. -/
theorem claim_C8_fit_estimation (n p : Nat) (x : Matrix (Fin n) (Fin p) ℚ) (y : Fin n → ℚ)
    (hn : n ≠ 0) (hd : detExec (x.transpose * x) ≠ 0) :
    fitCore n p x y = .ok (fitStatsOf n p x y) ∧
    (x.transpose * x).mulVec (fitStatsOf n p x y).beta = x.transpose.mulVec y ∧
    (fitStatsOf n p x y).mse =
      (∑ i, (x.mulVec (fitStatsOf n p x y).beta i - y i) ^ 2) / ((n : ℚ) - (p : ℚ)) ∧
    (fitStatsOf n p x y).df_1 = (p : ℤ) - 1 ∧
    (fitStatsOf n p x y).df_2 = (n : ℤ) - (p : ℤ) ∧
    (∀ j, (fitStatsOf n p x y).tstat j = (((fitStatsOf n p x y).beta j : ℚ) : ℝ) /
      Real.sqrt (((fitStatsOf n p x y).mse * ((x.transpose * x)⁻¹ j j) : ℚ) : ℝ)) := by
  have hdet : (x.transpose * x).det ≠ 0 := by
    rw [← detExec_eq_det]
    exact hd
  have hinv : (x.transpose * x)⁻¹ =
      (x.transpose * x).det⁻¹ • (x.transpose * x).adjugate := by
    rw [Matrix.inv_def, Ring.inverse_eq_inv]
  refine ⟨?_, ?_, ?_, ?_, ?_, ?_⟩
  · simp only [fitCore, if_neg hn, if_neg hd]
  · simp only [fitStatsOf]
    rw [Matrix.mulVec_mulVec, Matrix.mul_smul, Matrix.mul_adjugate, smul_smul,
      inv_mul_cancel₀ hdet, one_smul, Matrix.one_mulVec]
  · simp [fitStatsOf, fit_intercept]
  · simp [fitStatsOf, fit_intercept]
  · simp [fitStatsOf, fit_intercept]
  · intro j
    simp only [fitStatsOf]
    rw [hinv]

/-- Witness for C8 at a 1×1 design matrix. -/
theorem claim_C8_fit_estimation_witness :
    ((1 : Nat) ≠ 0 ∧ detExec (xW.transpose * xW) ≠ 0) ∧
    (fitCore 1 1 xW yW = .ok (fitStatsOf 1 1 xW yW) ∧
     (xW.transpose * xW).mulVec (fitStatsOf 1 1 xW yW).beta = xW.transpose.mulVec yW ∧
     (fitStatsOf 1 1 xW yW).mse =
       (∑ i, (xW.mulVec (fitStatsOf 1 1 xW yW).beta i - yW i) ^ 2) /
         ((1 : ℚ) - (1 : ℚ)) ∧
     (fitStatsOf 1 1 xW yW).df_1 = (1 : ℤ) - 1 ∧
     (fitStatsOf 1 1 xW yW).df_2 = (1 : ℤ) - (1 : ℤ) ∧
     (∀ j, (fitStatsOf 1 1 xW yW).tstat j = (((fitStatsOf 1 1 xW yW).beta j : ℚ) : ℝ) /
       Real.sqrt (((fitStatsOf 1 1 xW yW).mse * ((xW.transpose * xW)⁻¹ j j) : ℚ) : ℝ))) :=
  ⟨⟨by decide, by decide⟩,
    claim_C8_fit_estimation 1 1 xW yW (by decide) (by decide)⟩

/-- Claim C9: the summary statistic `corr_alpha_net_pnl` is computed
identically to `corr_alpha_pnl` — both correlate alpha with the raw `pnl`
column of the traded rows — so the two reported values agree on every input
table. -/
theorem claim_C9_corr_net_equals_corr (btdf : List PnlRow) (cfg : Config) :
    (summary btdf cfg).map SummaryRec.corr_alpha_pnl =
      (summary btdf cfg).map SummaryRec.corr_alpha_net_pnl := by
  by_cases h : ((btdf.filter (fun p => decide (p.trade ≠ 0))).length : ℚ) = 0
  · simp only [summary, pyDiv_of_den_zero _ _ h, Bind.bind, Except.bind]
    rfl
  · simp only [summary, pyDiv_of_den_ne _ _ h, Bind.bind, Except.bind]
    rfl

/-- Claim C10: `summary` succeeds exactly when the table has a row with a
nonzero trade: the win/loss rates divide by the raw trade count without a
guard, so an input with no traded rows raises `ZeroDivisionError`, while
`n_trades_per_day` and the per-day averages use the guarded `safe_divide`. -/
theorem claim_C10_summary_needs_trades (btdf : List PnlRow) (cfg : Config) :
    ((summary btdf cfg).isOk ↔ btdf.filter (fun p => decide (p.trade ≠ 0)) ≠ []) ∧
    (btdf.filter (fun p => decide (p.trade ≠ 0)) = [] →
      summary btdf cfg = .error .zeroDivisionError) := by
  by_cases h : btdf.filter (fun p => decide (p.trade ≠ 0)) = []
  · have hq : ((btdf.filter (fun p => decide (p.trade ≠ 0))).length : ℚ) = 0 := by
      rw [h]
      simp
    have herr : summary btdf cfg = .error .zeroDivisionError := by
      simp only [summary, pyDiv_of_den_zero _ _ hq, Bind.bind, Except.bind]
    refine ⟨?_, fun _ => herr⟩
    rw [herr]
    simp only [Except.isOk, Except.toBool]
    exact ⟨fun hc => absurd hc (by decide), fun hc => absurd h hc⟩
  · have hq : ((btdf.filter (fun p => decide (p.trade ≠ 0))).length : ℚ) ≠ 0 := by
      simpa [Nat.cast_eq_zero, List.length_eq_zero] using h
    constructor
    · simp only [summary, pyDiv_of_den_ne _ _ hq, Bind.bind, Except.bind]
      simp only [Except.isOk, Except.toBool, Pure.pure, Except.pure]
      simpa using h
    · intro hc
      exact absurd hc h

end HFT
